import Mathlib

/-!
Verification development for the Trusted-paygram repository.

Shallow embedding of the two core contracts:
  * `TrustScoring`  (src/contracts/TrustScoring.sol)
  * `PayGramCore`   (the full implementation in src/unnamed/part_025, second
    contract in that file, lines 318-1073)

Modelling conventions:
  * Solidity addresses are `Nat`; the zero address is `0`.
  * `euint64` ciphertext values are modelled by their plaintext `Nat` value
    (always `< 2^64` in the source); `FHE.sub` wraps modulo `2^64`
    (`sub64` below); `FHE.select` is an `if`; `FHE.ge` / `FHE.lt` are the
    corresponding comparisons.  FHE access-control grants (`FHE.allow*`) do
    not change any value and are not modelled.
  * Solidity mappings are functions with the zero value as default; the
    `_hasScore` boolean mapping is modelled as the `Finset` of addresses at
    which it is true (it has finite support in every reachable state).
  * A reverting call is an `Except` error; the `.ok` payload is the
    post-state (plus, where relevant, data reported in emitted events or
    transfers performed).  Reverts are atomic by construction: an error
    result carries no successor state.
  * `block.timestamp` is an explicit `now : Nat` argument, `msg.sender` an
    explicit `sender : Addr` argument.
-/

namespace PayGram

/-- Solidity `address`, with `0` as the zero address. -/
abbrev Addr := Nat

/-- Wrap-around subtraction of `euint64` values (`FHE.sub`), both operands
assumed `< 2^64` as in the source. -/
def sub64 (a b : Nat) : Nat := (2 ^ 64 + a - b) % 2 ^ 64

namespace TrustScoring

/-- `HIGH_TRUST_THRESHOLD` in TrustScoring.sol. -/
def HIGH_TRUST_THRESHOLD : Nat := 75

/-- `MEDIUM_TRUST_THRESHOLD` in TrustScoring.sol. -/
def MEDIUM_TRUST_THRESHOLD : Nat := 40

/-- `MAX_SCORE` in TrustScoring.sol. -/
def MAX_SCORE : Nat := 100

/-- `SCORE_EXPIRY = 90 days`, in seconds. -/
def SCORE_EXPIRY : Nat := 90 * 86400

/-- Errors of TrustScoring.sol, plus `NotOwner` for the `onlyOwner`
(OpenZeppelin `Ownable`) revert. -/
inductive TSError where
  | NotOwner
  | UnauthorizedOracle
  | AccountNotScored
  | ScoreExpired
  | InvalidScoreRange
  | BatchLengthMismatch
  | ZeroAddress
deriving DecidableEq, Repr

/-- Storage of the TrustScoring contract.  `scored` is the set of addresses
at which the `_hasScore` mapping is true. -/
structure State where
  trustScores : Addr → Nat
  scored : Finset Addr
  authorizedOracles : Addr → Bool
  lastScoreUpdate : Addr → Nat
  totalScoredAddresses : Nat
  owner : Addr

/-- `hasScore(account)` view. -/
def State.hasScore (σ : State) (a : Addr) : Bool := a ∈ σ.scored

/-- `_isExpired(account)`: `block.timestamp > lastScoreUpdate[account] + SCORE_EXPIRY`. -/
def isExpiredAt (σ : State) (a : Addr) (now : Nat) : Bool :=
  decide (now > σ.lastScoreUpdate a + SCORE_EXPIRY)

/-- `isScoreExpired(account)`: true if unscored, otherwise `_isExpired`. -/
def isScoreExpired (σ : State) (a : Addr) (now : Nat) : Bool :=
  if a ∉ σ.scored then true else isExpiredAt σ a now

/-- State written by the internal `_setScore(account, score)` helper:
stores the ciphertext, marks the account scored, records the timestamp,
and increments `totalScoredAddresses` exactly when the account had no
live score. -/
def setScoreInternal (σ : State) (a : Addr) (v : Nat) (now : Nat) : State :=
  { σ with
    trustScores := Function.update σ.trustScores a v
    scored := insert a σ.scored
    lastScoreUpdate := Function.update σ.lastScoreUpdate a now
    totalScoredAddresses :=
      if a ∈ σ.scored then σ.totalScoredAddresses else σ.totalScoredAddresses + 1 }

/-- The oblivious clamp in `setTrustScore`:
`select(le(score, MAX_SCORE), score, 0)` — values above 100 are replaced
by the sentinel 0. -/
def clampEncrypted (score : Nat) : Nat :=
  if score ≤ MAX_SCORE then score else 0

/-- The plaintext clamp in `setTrustScorePlaintext` and `batchSetScores`:
`score > MAX_SCORE ? MAX_SCORE : score`. -/
def clampPlaintext (score : Nat) : Nat :=
  if score > MAX_SCORE then MAX_SCORE else score

/-- `setOracle(oracle, authorized)` — owner-only. -/
def setOracle (σ : State) (sender oracle : Addr) (authorized : Bool) :
    Except TSError State :=
  if sender ≠ σ.owner then .error .NotOwner
  else if oracle = 0 then .error .ZeroAddress
  else .ok { σ with
    authorizedOracles := Function.update σ.authorizedOracles oracle authorized }

/-- `setTrustScore(account, encryptedScore, inputProof)` — oracle-only;
`score` is the plaintext under the submitted ciphertext. -/
def setTrustScore (σ : State) (sender account : Addr) (score : Nat) (now : Nat) :
    Except TSError State :=
  if ¬ σ.authorizedOracles sender then .error .UnauthorizedOracle
  else if account = 0 then .error .ZeroAddress
  else .ok (setScoreInternal σ account (clampEncrypted score) now)

/-- `setTrustScorePlaintext(account, score)` — oracle-only. -/
def setTrustScorePlaintext (σ : State) (sender account : Addr) (score : Nat)
    (now : Nat) : Except TSError State :=
  if ¬ σ.authorizedOracles sender then .error .UnauthorizedOracle
  else if account = 0 then .error .ZeroAddress
  else .ok (setScoreInternal σ account (clampPlaintext score) now)

/-- Loop body of `batchSetScores` over the zipped account/score pairs;
a zero address anywhere reverts the whole call. -/
def batchGo (σ : State) (now : Nat) : List (Addr × Nat) → Except TSError State
  | [] => .ok σ
  | (a, s) :: rest =>
    if a = 0 then .error .ZeroAddress
    else batchGo (setScoreInternal σ a (clampPlaintext s) now) now rest

/-- `batchSetScores(accounts, scores)` — oracle-only. -/
def batchSetScores (σ : State) (sender : Addr) (accounts : List Addr)
    (scores : List Nat) (now : Nat) : Except TSError State :=
  if ¬ σ.authorizedOracles sender then .error .UnauthorizedOracle
  else if accounts.length ≠ scores.length then .error .BatchLengthMismatch
  else batchGo σ now (accounts.zip scores)

/-- `revokeScore(account)` — oracle-only, requires a live score; clears the
record and decrements the counter. -/
def revokeScore (σ : State) (sender account : Addr) : Except TSError State :=
  if ¬ σ.authorizedOracles sender then .error .UnauthorizedOracle
  else if account ∉ σ.scored then .error .AccountNotScored
  else .ok { σ with
    trustScores := Function.update σ.trustScores account 0
    scored := σ.scored.erase account
    lastScoreUpdate := Function.update σ.lastScoreUpdate account 0
    totalScoredAddresses := σ.totalScoredAddresses - 1 }

/-- `isHighTrust(account)` — the returned value is the plaintext under the
encrypted boolean `FHE.ge(score, HIGH_TRUST_THRESHOLD)`.  The `scored` and
`notExpired` modifiers are the two leading checks. -/
def isHighTrust (σ : State) (account : Addr) (now : Nat) : Except TSError Bool :=
  if account ∉ σ.scored then .error .AccountNotScored
  else if isExpiredAt σ account now then .error .ScoreExpired
  else .ok (decide (σ.trustScores account ≥ HIGH_TRUST_THRESHOLD))

/-- `isMediumTrust(account)`: encrypted `score ≥ MEDIUM_TRUST_THRESHOLD`. -/
def isMediumTrust (σ : State) (account : Addr) (now : Nat) : Except TSError Bool :=
  if account ∉ σ.scored then .error .AccountNotScored
  else if isExpiredAt σ account now then .error .ScoreExpired
  else .ok (decide (σ.trustScores account ≥ MEDIUM_TRUST_THRESHOLD))

/-- `isLowTrust(account)`: encrypted `score < MEDIUM_TRUST_THRESHOLD`. -/
def isLowTrust (σ : State) (account : Addr) (now : Nat) : Except TSError Bool :=
  if account ∉ σ.scored then .error .AccountNotScored
  else if isExpiredAt σ account now then .error .ScoreExpired
  else .ok (decide (σ.trustScores account < MEDIUM_TRUST_THRESHOLD))

/-- `getTrustTier(account)`: nested `FHE.select` computing 2 = HIGH,
1 = MEDIUM, 0 = LOW. -/
def getTrustTier (σ : State) (account : Addr) (now : Nat) : Except TSError Nat :=
  if account ∉ σ.scored then .error .AccountNotScored
  else if isExpiredAt σ account now then .error .ScoreExpired
  else .ok (if σ.trustScores account ≥ HIGH_TRUST_THRESHOLD then 2
            else if σ.trustScores account ≥ MEDIUM_TRUST_THRESHOLD then 1
            else 0)

/-- One successful state-mutating call on the TrustScoring contract. -/
inductive Step : State → State → Prop
  | setOracle {σ σ' s o b} : setOracle σ s o b = .ok σ' → Step σ σ'
  | setTrustScore {σ σ' s a v now} :
      setTrustScore σ s a v now = .ok σ' → Step σ σ'
  | setTrustScorePlaintext {σ σ' s a v now} :
      setTrustScorePlaintext σ s a v now = .ok σ' → Step σ σ'
  | batchSetScores {σ σ' s accounts scores now} :
      batchSetScores σ s accounts scores now = .ok σ' → Step σ σ'
  | revokeScore {σ σ' s a} : revokeScore σ s a = .ok σ' → Step σ σ'

/-- Post-constructor state of TrustScoring: all mappings empty. -/
def initialState (owner : Addr) : State :=
  { trustScores := fun _ => 0
    scored := ∅
    authorizedOracles := fun _ => false
    lastScoreUpdate := fun _ => 0
    totalScoredAddresses := 0
    owner := owner }

/-- A TrustScoring state reachable from deployment by successful calls. -/
def Reachable (σ : State) : Prop :=
  ∃ o, Relation.ReflTransGen Step (initialState o) σ

end TrustScoring

namespace Core

/-- `DELAY_PERIOD = 24 hours`, in seconds. -/
def DELAY_PERIOD : Nat := 86400

/-- `MAX_BATCH_SIZE` in PayGramCore. -/
def MAX_BATCH_SIZE : Nat := 50

/-- The `PaymentStatus` enum of PayGramCore. -/
inductive PaymentStatus where
  | none
  | instant
  | delayed
  | escrowed
  | released
  | completed
deriving DecidableEq, Repr

/-- The `Employee` struct of PayGramCore. -/
structure Employee where
  wallet : Addr
  encryptedSalary : Nat
  isActive : Bool
  hireDate : Nat
  lastPayDate : Nat
  role : String
deriving DecidableEq, Repr

/-- The `PendingPayment` struct of PayGramCore. -/
structure PendingPayment where
  id : Nat
  employee : Addr
  encryptedAmount : Nat
  status : PaymentStatus
  createdAt : Nat
  releaseTime : Nat
  milestone : String
deriving DecidableEq, Repr

/-- Default value of the `_employees` mapping (all-zero struct). -/
def emptyEmployee : Employee := ⟨0, 0, false, 0, 0, ""⟩

/-- Default value of the `pendingPayments` mapping (all-zero struct,
status `None`). -/
def emptyPayment : PendingPayment := ⟨0, 0, 0, .none, 0, 0, ""⟩

/-- Errors of PayGramCore, plus `NotOwner` for `onlyOwner` reverts and
`RegistryError` for reverts propagated from a TrustScoring sub-call. -/
inductive CoreError where
  | NotOwner
  | NotEmployer
  | EmployeeAlreadyExists
  | EmployeeNotFound
  | EmployeeNotActive
  | PaymentNotFound
  | PaymentNotReleasable
  | PaymentAlreadyProcessed
  | DelayNotElapsed
  | PayrollLocked
  | ZeroAddress
  | RegistryError (e : TrustScoring.TSError)
deriving DecidableEq, Repr

/-- Storage of the PayGramCore contract.  The `trustScoring` and `payToken`
address fields are not modelled: the TrustScoring state is passed to
`executePayroll` explicitly, and the token ledger is external. -/
structure State where
  employees : Addr → Employee
  employeeList : List Addr
  pendingPayments : Nat → PendingPayment
  nextPaymentId : Nat
  totalPayrollsExecuted : Nat
  employer : Addr
  payrollLock : Bool
  owner : Addr

/-- Internal `_storeEmployee`: writes the struct and appends to
`employeeList`. -/
def storeEmployee (σ : State) (wallet : Addr) (salary : Nat) (role : String)
    (now : Nat) : State :=
  { σ with
    employees := Function.update σ.employees wallet
      ⟨wallet, salary, true, now, 0, role⟩
    employeeList := σ.employeeList ++ [wallet] }

/-- `addEmployee(wallet, encryptedSalary, inputProof, role)` — employer-only;
`salary` is the plaintext under the submitted ciphertext. -/
def addEmployee (σ : State) (sender wallet : Addr) (salary : Nat)
    (role : String) (now : Nat) : Except CoreError State :=
  if sender ≠ σ.employer then .error .NotEmployer
  else if wallet = 0 then .error .ZeroAddress
  else if (σ.employees wallet).wallet ≠ 0 then .error .EmployeeAlreadyExists
  else .ok (storeEmployee σ wallet salary role now)

/-- `addEmployeePlaintext(wallet, salary, role)` — employer-only; same
checks and storage as `addEmployee`, the salary arriving in the clear. -/
def addEmployeePlaintext (σ : State) (sender wallet : Addr) (salary : Nat)
    (role : String) (now : Nat) : Except CoreError State :=
  if sender ≠ σ.employer then .error .NotEmployer
  else if wallet = 0 then .error .ZeroAddress
  else if (σ.employees wallet).wallet ≠ 0 then .error .EmployeeAlreadyExists
  else .ok (storeEmployee σ wallet salary role now)

/-- `removeEmployee(wallet)` — employer-only soft delete: only `isActive`
is cleared, the rest of the record (in particular `wallet`) is retained. -/
def removeEmployee (σ : State) (sender wallet : Addr) : Except CoreError State :=
  if sender ≠ σ.employer then .error .NotEmployer
  else if (σ.employees wallet).wallet = 0 then .error .EmployeeNotFound
  else if ¬ (σ.employees wallet).isActive then .error .EmployeeNotActive
  else .ok { σ with
    employees := Function.update σ.employees wallet
      { σ.employees wallet with isActive := false } }

/-- `updateSalary(wallet, encryptedSalary, inputProof)` — employer-only. -/
def updateSalary (σ : State) (sender wallet : Addr) (salary : Nat) :
    Except CoreError State :=
  if sender ≠ σ.employer then .error .NotEmployer
  else if (σ.employees wallet).wallet = 0 then .error .EmployeeNotFound
  else if ¬ (σ.employees wallet).isActive then .error .EmployeeNotActive
  else .ok { σ with
    employees := Function.update σ.employees wallet
      { σ.employees wallet with encryptedSalary := salary } }

/-- `updateSalaryPlaintext(wallet, salary)` — employer-only. -/
def updateSalaryPlaintext (σ : State) (sender wallet : Addr) (salary : Nat) :
    Except CoreError State :=
  if sender ≠ σ.employer then .error .NotEmployer
  else if (σ.employees wallet).wallet = 0 then .error .EmployeeNotFound
  else if ¬ (σ.employees wallet).isActive then .error .EmployeeNotActive
  else .ok { σ with
    employees := Function.update σ.employees wallet
      { σ.employees wallet with encryptedSalary := salary } }

/-- `updateEmployeeRole(wallet, newRole)` — employer-only. -/
def updateEmployeeRole (σ : State) (sender wallet : Addr) (newRole : String) :
    Except CoreError State :=
  if sender ≠ σ.employer then .error .NotEmployer
  else if (σ.employees wallet).wallet = 0 then .error .EmployeeNotFound
  else if ¬ (σ.employees wallet).isActive then .error .EmployeeNotActive
  else .ok { σ with
    employees := Function.update σ.employees wallet
      { σ.employees wallet with role := newRole } }

/-- The oblivious amount computation in `_processWithTrustTier`:
`instantAmt = select(isHigh, salary, 0)`, `remaining = salary - instantAmt`,
`delayedAmt = select(isMed, remaining, 0)`,
`escrowAmt = remaining - delayedAmt`; subtraction wraps modulo `2^64`. -/
def obliviousAmounts (salary : Nat) (isHigh isMed : Bool) : Nat × Nat × Nat :=
  let instantAmt := if isHigh then salary else 0
  let remaining := sub64 salary instantAmt
  let delayedAmt := if isMed then remaining else 0
  let escrowAmt := sub64 remaining delayedAmt
  (instantAmt, delayedAmt, escrowAmt)

/-- `_processInstantPayment`: records an audit `Instant` payment at the
fresh id and post-increments the counter (the immediate confidential
transfer it performs is on the external ledger and not part of this
state). -/
def processInstantPayment (pend : Nat → PendingPayment) (nid : Nat)
    (employee : Addr) (amount now : Nat) : (Nat → PendingPayment) × Nat :=
  (Function.update pend nid ⟨nid, employee, amount, .instant, now, 0, ""⟩, nid + 1)

/-- `_processDelayedPayment`: records a `Delayed` payment with
`releaseTime = now + DELAY_PERIOD` at the fresh id. -/
def processDelayedPayment (pend : Nat → PendingPayment) (nid : Nat)
    (employee : Addr) (amount now : Nat) : (Nat → PendingPayment) × Nat :=
  (Function.update pend nid
    ⟨nid, employee, amount, .delayed, now, now + DELAY_PERIOD, ""⟩, nid + 1)

/-- `_processEscrowPaymentEncrypted`: records an `Escrowed` payment at the
fresh id. -/
def processEscrowPaymentEncrypted (pend : Nat → PendingPayment) (nid : Nat)
    (employee : Addr) (amount now : Nat) : (Nat → PendingPayment) × Nat :=
  (Function.update pend nid
    ⟨nid, employee, amount, .escrowed, now, 0, "Pending employer approval"⟩, nid + 1)

/-- `_processEscrowPayment` (unscored employees): escrows the employee's
full stored encrypted salary. -/
def processEscrowPayment (pend : Nat → PendingPayment) (nid : Nat)
    (emp : Employee) (now : Nat) : (Nat → PendingPayment) × Nat :=
  (Function.update pend nid
    ⟨nid, emp.wallet, emp.encryptedSalary, .escrowed, now, 0,
      "Pending employer approval"⟩, nid + 1)

/-- `_processWithTrustTier` with the two encrypted booleans already fetched:
computes the three oblivious amounts and runs all three disbursement
paths, creating three payment records. -/
def processWithTrustTier (pend : Nat → PendingPayment) (nid : Nat)
    (emp : Employee) (isHigh isMed : Bool) (now : Nat) :
    (Nat → PendingPayment) × Nat :=
  match obliviousAmounts emp.encryptedSalary isHigh isMed with
  | (instantAmt, delayedAmt, escrowAmt) =>
    let r1 := processInstantPayment pend nid emp.wallet instantAmt now
    let r2 := processDelayedPayment r1.1 r1.2 emp.wallet delayedAmt now
    processEscrowPaymentEncrypted r2.1 r2.2 emp.wallet escrowAmt now

/-- The `for` loop of `executePayroll`: walks `employeeList`, stops once
`processed` reaches `MAX_BATCH_SIZE`, skips inactive employees (they do not
increment `processed`), routes unscored employees to the default escrow
path and scored ones through `_processWithTrustTier`, and stamps
`lastPayDate` on each processed employee.  A revert from a TrustScoring
tier call aborts the whole loop. -/
def payrollLoop (ts : TrustScoring.State) (now : Nat) :
    List Addr → (Addr → Employee) → (Nat → PendingPayment) → Nat → Nat →
    Except TrustScoring.TSError
      ((Addr → Employee) × (Nat → PendingPayment) × Nat × Nat)
  | [], emps, pend, nid, processed => .ok (emps, pend, nid, processed)
  | w :: rest, emps, pend, nid, processed =>
    if MAX_BATCH_SIZE ≤ processed then .ok (emps, pend, nid, processed)
    else
      let emp := emps w
      if ¬ emp.isActive then payrollLoop ts now rest emps pend nid processed
      else
        let emps' := Function.update emps w { emp with lastPayDate := now }
        if ¬ ts.hasScore w then
          let r := processEscrowPayment pend nid emp now
          payrollLoop ts now rest emps' r.1 r.2 (processed + 1)
        else
          match TrustScoring.isHighTrust ts w now with
          | .error e => .error e
          | .ok isHigh =>
            match TrustScoring.isMediumTrust ts w now with
            | .error e => .error e
            | .ok isMed =>
              let r := processWithTrustTier pend nid emp isHigh isMed now
              payrollLoop ts now rest emps' r.1 r.2 (processed + 1)

/-- `executePayroll()` — employer-only, reentrancy-guarded.  The second
component of the result is the processed count reported in the emitted
`PayrollExecuted` event. -/
def executePayroll (σ : State) (ts : TrustScoring.State) (sender now : Nat) :
    Except CoreError (State × Nat) :=
  if sender ≠ σ.employer then .error .NotEmployer
  else if σ.payrollLock then .error .PayrollLocked
  else
    match payrollLoop ts now σ.employeeList σ.employees σ.pendingPayments
        σ.nextPaymentId 0 with
    | .error e => .error (.RegistryError e)
    | .ok (emps, pend, nid, processed) =>
      .ok ({ σ with
        employees := emps
        pendingPayments := pend
        nextPaymentId := nid
        totalPayrollsExecuted := σ.totalPayrollsExecuted + 1 }, processed)

/-- `releasePayment(paymentId)` — callable by anyone; the extra result
components are the confidential transfer performed on success
(recipient, plaintext under the transferred encrypted amount). -/
def releasePayment (σ : State) (sender : Addr) (now : Nat) (paymentId : Nat) :
    Except CoreError (State × Addr × Nat) :=
  let p := σ.pendingPayments paymentId
  if p.status = .none then .error .PaymentNotFound
  else if p.status = .delayed then
    if now < p.releaseTime then .error .DelayNotElapsed
    else .ok ({ σ with
        pendingPayments := Function.update σ.pendingPayments paymentId
          { p with status := .released } },
      p.employee, p.encryptedAmount)
  else if p.status = .escrowed then
    if sender ≠ σ.employer then .error .NotEmployer
    else .ok ({ σ with
        pendingPayments := Function.update σ.pendingPayments paymentId
          { p with status := .released } },
      p.employee, p.encryptedAmount)
  else .error .PaymentNotReleasable

/-- `cancelPayment(paymentId)` — employer-only. -/
def cancelPayment (σ : State) (sender : Addr) (paymentId : Nat) :
    Except CoreError State :=
  if sender ≠ σ.employer then .error .NotEmployer
  else
    let p := σ.pendingPayments paymentId
    if p.status = .none then .error .PaymentNotFound
    else if p.status ≠ .delayed ∧ p.status ≠ .escrowed then
      .error .PaymentAlreadyProcessed
    else .ok { σ with
      pendingPayments := Function.update σ.pendingPayments paymentId
        { p with status := .completed } }

/-- `transferEmployer(newEmployer)` — owner-only. -/
def transferEmployer (σ : State) (sender newEmployer : Addr) :
    Except CoreError State :=
  if sender ≠ σ.owner then .error .NotOwner
  else if newEmployer = 0 then .error .ZeroAddress
  else .ok { σ with employer := newEmployer }

/-- One successful state-mutating call on the PayGramCore contract.
`updateTrustScoring` and `updatePayToken` are omitted: they only change
the unmodelled external-contract address fields (the TrustScoring state
of a payroll step is quantified instead). -/
inductive Step : State → State → Prop
  | addEmployee {σ σ' s w sal role now} :
      addEmployee σ s w sal role now = .ok σ' → Step σ σ'
  | addEmployeePlaintext {σ σ' s w sal role now} :
      addEmployeePlaintext σ s w sal role now = .ok σ' → Step σ σ'
  | removeEmployee {σ σ' s w} : removeEmployee σ s w = .ok σ' → Step σ σ'
  | updateSalary {σ σ' s w sal} : updateSalary σ s w sal = .ok σ' → Step σ σ'
  | updateSalaryPlaintext {σ σ' s w sal} :
      updateSalaryPlaintext σ s w sal = .ok σ' → Step σ σ'
  | updateEmployeeRole {σ σ' s w r} :
      updateEmployeeRole σ s w r = .ok σ' → Step σ σ'
  | executePayroll {σ σ' ts s now cnt} :
      executePayroll σ ts s now = .ok (σ', cnt) → Step σ σ'
  | releasePayment {σ σ' s now id dst amt} :
      releasePayment σ s now id = .ok (σ', dst, amt) → Step σ σ'
  | cancelPayment {σ σ' s id} : cancelPayment σ s id = .ok σ' → Step σ σ'
  | transferEmployer {σ σ' s e} : transferEmployer σ s e = .ok σ' → Step σ σ'

/-- Post-constructor state of PayGramCore (the constructor rejects a zero
employer address). -/
def initialState (owner employer : Addr) : State :=
  { employees := fun _ => emptyEmployee
    employeeList := []
    pendingPayments := fun _ => emptyPayment
    nextPaymentId := 0
    totalPayrollsExecuted := 0
    employer := employer
    payrollLock := false
    owner := owner }

/-- A PayGramCore state reachable from deployment by successful calls. -/
def Reachable (σ : State) : Prop :=
  ∃ o e, e ≠ 0 ∧ Relation.ReflTransGen Step (initialState o e) σ

/-- The sublist of `employeeList` entries processed by a payroll run:
the first `budget` entries satisfying the activity predicate, in list
order (inactive entries are skipped without consuming budget). -/
def takeActive (act : Addr → Bool) : List Addr → Nat → List Addr
  | [], _ => []
  | w :: rest, b =>
    if b = 0 then []
    else if act w then w :: takeActive act rest (b - 1)
    else takeActive act rest b

end Core

/-! Concrete states used by witnesses and counterexamples. -/

/-- A TrustScoring state with oracle `2` authorized and no scores. -/
def tsBase : TrustScoring.State :=
  { trustScores := fun _ => 0
    scored := ∅
    authorizedOracles := fun a => decide (a = 2)
    lastScoreUpdate := fun _ => 0
    totalScoredAddresses := 0
    owner := 1 }

/-- `tsBase` after subject `3` received score `v` at time 0. -/
def tsWithScore (v : Nat) : TrustScoring.State :=
  TrustScoring.setScoreInternal tsBase 3 v 0

/-- A freshly deployed PayGramCore state, owner and employer `1`. -/
def coreBase : Core.State := Core.initialState 1 1

/-- `coreBase` after employee `2` (salary 5000) was added at time 0. -/
def coreOneEmp : Core.State := Core.storeEmployee coreBase 2 5000 "engineer" 0

/-- `coreOneEmp` after a payroll run at time 7 with employee `2` unscored:
one `Escrowed` payment record at id 0. -/
def coreEscrowed : Core.State :=
  { coreOneEmp with
    employees := Function.update coreOneEmp.employees 2
      { coreOneEmp.employees 2 with lastPayDate := 7 }
    pendingPayments := Function.update coreOneEmp.pendingPayments 0
      ⟨0, 2, 5000, .escrowed, 7, 0, "Pending employer approval"⟩
    nextPaymentId := 1
    totalPayrollsExecuted := 1 }

/-- `coreEscrowed` after the employer cancelled payment 0: the record is
`Completed`. -/
def coreCancelled : Core.State :=
  { coreEscrowed with
    pendingPayments := Function.update coreEscrowed.pendingPayments 0
      { coreEscrowed.pendingPayments 0 with status := .completed } }

/-! Theorems. -/

/-- Wrap-around subtraction of a value from itself yields zero. -/
theorem sub64_self (a : Nat) : sub64 a a = 0 := by
  simp [sub64]

/-- Wrap-around subtraction of zero is the identity below `2^64`. -/
theorem sub64_zero_right (a : Nat) (h : a < 2 ^ 64) : sub64 a 0 = a := by
  have h' : a < 18446744073709551616 := by simpa using h
  simp [sub64, Nat.add_mod_left, Nat.mod_eq_of_lt h']

/-- Claim C1: for every encrypted salary and every pair of encrypted trust
booleans derived from a single score against the fixed thresholds, the
three amounts computed by `_processWithTrustTier` sum to the salary
exactly, and at most one of the three is nonzero. -/
theorem C1_oblivious_routing (score salary : Nat) (hsal : salary < 2 ^ 64)
    (isHigh isMed : Bool)
    (hHigh : isHigh = decide (TrustScoring.HIGH_TRUST_THRESHOLD ≤ score))
    (hMed : isMed = decide (TrustScoring.MEDIUM_TRUST_THRESHOLD ≤ score)) :
    (Core.obliviousAmounts salary isHigh isMed).1 +
      (Core.obliviousAmounts salary isHigh isMed).2.1 +
      (Core.obliviousAmounts salary isHigh isMed).2.2 = salary ∧
    ((Core.obliviousAmounts salary isHigh isMed).1 ≠ 0 →
      (Core.obliviousAmounts salary isHigh isMed).2.1 = 0 ∧
      (Core.obliviousAmounts salary isHigh isMed).2.2 = 0) ∧
    ((Core.obliviousAmounts salary isHigh isMed).2.1 ≠ 0 →
      (Core.obliviousAmounts salary isHigh isMed).1 = 0 ∧
      (Core.obliviousAmounts salary isHigh isMed).2.2 = 0) ∧
    ((Core.obliviousAmounts salary isHigh isMed).2.2 ≠ 0 →
      (Core.obliviousAmounts salary isHigh isMed).1 = 0 ∧
      (Core.obliviousAmounts salary isHigh isMed).2.1 = 0) := by
  subst hHigh hMed
  by_cases h75 : TrustScoring.HIGH_TRUST_THRESHOLD ≤ score
  · have h40 : TrustScoring.MEDIUM_TRUST_THRESHOLD ≤ score :=
      le_trans (by decide) h75
    simp [Core.obliviousAmounts, h75, h40, sub64_self, sub64_zero_right]
  · by_cases h40 : TrustScoring.MEDIUM_TRUST_THRESHOLD ≤ score
    · simp [Core.obliviousAmounts, h75, h40, sub64_self,
        sub64_zero_right salary hsal]
    · simp [Core.obliviousAmounts, h75, h40, sub64_self,
        sub64_zero_right salary hsal]

/-- Witness for C1 at score 80, salary 5000. -/
theorem C1_oblivious_routing_witness :
    (Core.obliviousAmounts 5000 (decide (TrustScoring.HIGH_TRUST_THRESHOLD ≤ 80))
        (decide (TrustScoring.MEDIUM_TRUST_THRESHOLD ≤ 80))).1 +
      (Core.obliviousAmounts 5000 (decide (TrustScoring.HIGH_TRUST_THRESHOLD ≤ 80))
        (decide (TrustScoring.MEDIUM_TRUST_THRESHOLD ≤ 80))).2.1 +
      (Core.obliviousAmounts 5000 (decide (TrustScoring.HIGH_TRUST_THRESHOLD ≤ 80))
        (decide (TrustScoring.MEDIUM_TRUST_THRESHOLD ≤ 80))).2.2 = 5000 ∧
    ((Core.obliviousAmounts 5000 (decide (TrustScoring.HIGH_TRUST_THRESHOLD ≤ 80))
        (decide (TrustScoring.MEDIUM_TRUST_THRESHOLD ≤ 80))).1 ≠ 0 →
      (Core.obliviousAmounts 5000 (decide (TrustScoring.HIGH_TRUST_THRESHOLD ≤ 80))
        (decide (TrustScoring.MEDIUM_TRUST_THRESHOLD ≤ 80))).2.1 = 0 ∧
      (Core.obliviousAmounts 5000 (decide (TrustScoring.HIGH_TRUST_THRESHOLD ≤ 80))
        (decide (TrustScoring.MEDIUM_TRUST_THRESHOLD ≤ 80))).2.2 = 0) ∧
    ((Core.obliviousAmounts 5000 (decide (TrustScoring.HIGH_TRUST_THRESHOLD ≤ 80))
        (decide (TrustScoring.MEDIUM_TRUST_THRESHOLD ≤ 80))).2.1 ≠ 0 →
      (Core.obliviousAmounts 5000 (decide (TrustScoring.HIGH_TRUST_THRESHOLD ≤ 80))
        (decide (TrustScoring.MEDIUM_TRUST_THRESHOLD ≤ 80))).1 = 0 ∧
      (Core.obliviousAmounts 5000 (decide (TrustScoring.HIGH_TRUST_THRESHOLD ≤ 80))
        (decide (TrustScoring.MEDIUM_TRUST_THRESHOLD ≤ 80))).2.2 = 0) ∧
    ((Core.obliviousAmounts 5000 (decide (TrustScoring.HIGH_TRUST_THRESHOLD ≤ 80))
        (decide (TrustScoring.MEDIUM_TRUST_THRESHOLD ≤ 80))).2.2 ≠ 0 →
      (Core.obliviousAmounts 5000 (decide (TrustScoring.HIGH_TRUST_THRESHOLD ≤ 80))
        (decide (TrustScoring.MEDIUM_TRUST_THRESHOLD ≤ 80))).1 = 0 ∧
      (Core.obliviousAmounts 5000 (decide (TrustScoring.HIGH_TRUST_THRESHOLD ≤ 80))
        (decide (TrustScoring.MEDIUM_TRUST_THRESHOLD ≤ 80))).2.1 = 0) :=
  C1_oblivious_routing 80 5000 (by decide) _ _ rfl rfl

/-- Claim C2 counterexample: submitting 150 through the encrypted
`setTrustScore` path stores the sentinel 0, so `isHighTrust` answers
false, while submitting 100 makes it answer true — the classification
behaviors differ.  (The plaintext path does clamp 150 to 100.) -/
theorem C2_counterexample :
    ((TrustScoring.setTrustScore tsBase 2 3 150 0).bind
        fun σ => TrustScoring.isHighTrust σ 3 0) = .ok false ∧
    ((TrustScoring.setTrustScore tsBase 2 3 100 0).bind
        fun σ => TrustScoring.isHighTrust σ 3 0) = .ok true ∧
    ((TrustScoring.setTrustScorePlaintext tsBase 2 3 150 0).bind
        fun σ => TrustScoring.isHighTrust σ 3 0) = .ok true :=
  ⟨rfl, rfl, rfl⟩

/-- Claim C2 amended: `setTrustScorePlaintext(150)` behaves identically to
`setTrustScorePlaintext(100)` (plaintext clamp to 100), while
`setTrustScore` with an encryption of 150 behaves identically to an
encryption of 0 (the oblivious clamp replaces out-of-range values with
the sentinel 0, so classification matches score 0, not 100). -/
theorem C2_clamping (σ : TrustScoring.State) (s a : Addr) (now : Nat) :
    TrustScoring.setTrustScorePlaintext σ s a 150 now =
      TrustScoring.setTrustScorePlaintext σ s a 100 now ∧
    TrustScoring.setTrustScore σ s a 150 now =
      TrustScoring.setTrustScore σ s a 0 now :=
  ⟨rfl, rfl⟩

/-- Claim C3: with a live, non-expired score, `isHighTrust` is the
encrypted test `score ≥ 75`, `isMediumTrust` is `score ≥ 40` and
`isLowTrust` is `score < 40`; in particular at the boundary scores
75/74 and 40/39 they answer as the claim states. -/
theorem C3_tier_thresholds (σ : TrustScoring.State) (a : Addr) (now : Nat)
    (hs : a ∈ σ.scored) (hexp : TrustScoring.isExpiredAt σ a now = false) :
    TrustScoring.isHighTrust σ a now =
      .ok (decide (TrustScoring.HIGH_TRUST_THRESHOLD ≤ σ.trustScores a)) ∧
    TrustScoring.isMediumTrust σ a now =
      .ok (decide (TrustScoring.MEDIUM_TRUST_THRESHOLD ≤ σ.trustScores a)) ∧
    TrustScoring.isLowTrust σ a now =
      .ok (decide (σ.trustScores a < TrustScoring.MEDIUM_TRUST_THRESHOLD)) ∧
    (σ.trustScores a = 75 → TrustScoring.isHighTrust σ a now = .ok true) ∧
    (σ.trustScores a = 74 → TrustScoring.isHighTrust σ a now = .ok false) ∧
    (σ.trustScores a = 40 → TrustScoring.isMediumTrust σ a now = .ok true) ∧
    (σ.trustScores a = 39 → TrustScoring.isMediumTrust σ a now = .ok false ∧
      TrustScoring.isLowTrust σ a now = .ok true) := by
  refine ⟨?_, ?_, ?_, ?_, ?_, ?_, ?_⟩ <;>
    simp [TrustScoring.isHighTrust, TrustScoring.isMediumTrust,
      TrustScoring.isLowTrust, hs, hexp] <;>
    intro h <;>
    simp [h, TrustScoring.HIGH_TRUST_THRESHOLD,
      TrustScoring.MEDIUM_TRUST_THRESHOLD]

/-- Witness for C3 at the stored score 75 in a concrete registry. -/
theorem C3_tier_thresholds_witness :
    TrustScoring.isHighTrust (tsWithScore 75) 3 0 =
      .ok (decide (TrustScoring.HIGH_TRUST_THRESHOLD ≤
        (tsWithScore 75).trustScores 3)) ∧
    (tsWithScore 75).trustScores 3 = 75 ∧
    TrustScoring.isHighTrust (tsWithScore 75) 3 0 = .ok true := by
  have h := C3_tier_thresholds (tsWithScore 75) 3 0 (by decide) (by decide)
  exact ⟨h.1, rfl, h.2.2.2.1 rfl⟩

/-- Claim C9: a live score set at time `T` is not expired through
`T + 89 days`, is expired from `T + 91 days` on, the tier evaluations
fail with `ScoreExpired` exactly when the score is expired, re-scoring
at `T + 80 days` resets the expiry clock so `T + 160 days` is still not
expired, and an unscored subject is always reported expired. -/
theorem C9_score_expiry (σ : TrustScoring.State) (a : Addr) (T : Nat)
    (hs : a ∈ σ.scored) (hT : σ.lastScoreUpdate a = T) :
    (∀ t, t ≤ T + 89 * 86400 → TrustScoring.isScoreExpired σ a t = false) ∧
    (∀ t, T + 91 * 86400 ≤ t → TrustScoring.isScoreExpired σ a t = true) ∧
    (∀ t, TrustScoring.isHighTrust σ a t = .error .ScoreExpired ↔
      TrustScoring.isExpiredAt σ a t = true) ∧
    (∀ t, TrustScoring.isMediumTrust σ a t = .error .ScoreExpired ↔
      TrustScoring.isExpiredAt σ a t = true) ∧
    (∀ t, TrustScoring.isLowTrust σ a t = .error .ScoreExpired ↔
      TrustScoring.isExpiredAt σ a t = true) ∧
    (∀ t, TrustScoring.getTrustTier σ a t = .error .ScoreExpired ↔
      TrustScoring.isExpiredAt σ a t = true) ∧
    (∀ s v σ', TrustScoring.setTrustScorePlaintext σ s a v (T + 80 * 86400) =
        .ok σ' →
      TrustScoring.isScoreExpired σ' a (T + 160 * 86400) = false) ∧
    (∀ (σ₀ : TrustScoring.State) (b : Addr) (t : Nat), b ∉ σ₀.scored →
      TrustScoring.isScoreExpired σ₀ b t = true) := by
  have hmem : ¬ a ∉ σ.scored := by simpa using hs
  refine ⟨?_, ?_, ?_, ?_, ?_, ?_, ?_, ?_⟩
  · intro t ht
    simp only [TrustScoring.isScoreExpired, if_neg hmem,
      TrustScoring.isExpiredAt, TrustScoring.SCORE_EXPIRY, hT]
    simp only [decide_eq_false_iff_not, not_lt]
    omega
  · intro t ht
    simp only [TrustScoring.isScoreExpired, if_neg hmem,
      TrustScoring.isExpiredAt, TrustScoring.SCORE_EXPIRY, hT]
    simp only [decide_eq_true_eq]
    omega
  · intro t
    by_cases he : TrustScoring.isExpiredAt σ a t = true <;>
      simp [TrustScoring.isHighTrust, hmem, he]
  · intro t
    by_cases he : TrustScoring.isExpiredAt σ a t = true <;>
      simp [TrustScoring.isMediumTrust, hmem, he]
  · intro t
    by_cases he : TrustScoring.isExpiredAt σ a t = true <;>
      simp [TrustScoring.isLowTrust, hmem, he]
  · intro t
    by_cases he : TrustScoring.isExpiredAt σ a t = true <;>
      simp [TrustScoring.getTrustTier, hmem, he]
  · intro s v σ' hset
    simp only [TrustScoring.setTrustScorePlaintext] at hset
    split at hset
    · exact absurd hset (by simp)
    · split at hset
      · exact absurd hset (by simp)
      · cases hset
        simp only [TrustScoring.isScoreExpired, TrustScoring.setScoreInternal,
          TrustScoring.isExpiredAt, TrustScoring.SCORE_EXPIRY]
        rw [if_neg (by simp)]
        simp only [Function.update_same, decide_eq_false_iff_not, not_lt]
        omega
  · intro σ₀ b t hb
    simp [TrustScoring.isScoreExpired, hb]

/-- Witness for C9 in a concrete registry with subject 3 scored at time 0. -/
theorem C9_score_expiry_witness :
    TrustScoring.isScoreExpired (tsWithScore 50) 3 (89 * 86400) = false ∧
    TrustScoring.isScoreExpired (tsWithScore 50) 3 (91 * 86400) = true := by
  have h := C9_score_expiry (tsWithScore 50) 3 0 (by decide) rfl
  exact ⟨h.1 (89 * 86400) (by omega), h.2.1 (91 * 86400) (by omega)⟩

/-- The internal score-storage helper preserves the counter/card invariant:
it increments `totalScoredAddresses` exactly when the subject joins the
scored set. -/
theorem setScoreInternal_card (σ : TrustScoring.State) (a : Addr) (v now : Nat)
    (h : σ.totalScoredAddresses = σ.scored.card) :
    (TrustScoring.setScoreInternal σ a v now).totalScoredAddresses =
      (TrustScoring.setScoreInternal σ a v now).scored.card := by
  simp only [TrustScoring.setScoreInternal]
  by_cases hm : a ∈ σ.scored
  · simp [hm, Finset.insert_eq_self.mpr hm, h]
  · simp [hm, Finset.card_insert_of_not_mem hm, h]

/-- The batch loop preserves the counter/card invariant. -/
theorem batchGo_card (now : Nat) :
    ∀ (pairs : List (Addr × Nat)) (σ σ' : TrustScoring.State),
      TrustScoring.batchGo σ now pairs = .ok σ' →
      σ.totalScoredAddresses = σ.scored.card →
      σ'.totalScoredAddresses = σ'.scored.card := by
  intro pairs
  induction pairs with
  | nil =>
    intro σ σ' h hinv
    simp only [TrustScoring.batchGo] at h
    cases h
    exact hinv
  | cons p rest ih =>
    intro σ σ' h hinv
    obtain ⟨a, s⟩ := p
    simp only [TrustScoring.batchGo] at h
    split at h
    · exact absurd h (by simp)
    · exact ih _ _ h (setScoreInternal_card σ a _ now hinv)

/-- Every successful TrustScoring call preserves the counter/card
invariant. -/
theorem step_preserves_card {σ σ' : TrustScoring.State}
    (hstep : TrustScoring.Step σ σ')
    (hinv : σ.totalScoredAddresses = σ.scored.card) :
    σ'.totalScoredAddresses = σ'.scored.card := by
  cases hstep with
  | setOracle h =>
    simp only [TrustScoring.setOracle] at h
    split at h
    · exact absurd h (by simp)
    · split at h
      · exact absurd h (by simp)
      · cases h; exact hinv
  | setTrustScore h =>
    simp only [TrustScoring.setTrustScore] at h
    split at h
    · exact absurd h (by simp)
    · split at h
      · exact absurd h (by simp)
      · cases h; exact setScoreInternal_card _ _ _ _ hinv
  | setTrustScorePlaintext h =>
    simp only [TrustScoring.setTrustScorePlaintext] at h
    split at h
    · exact absurd h (by simp)
    · split at h
      · exact absurd h (by simp)
      · cases h; exact setScoreInternal_card _ _ _ _ hinv
  | batchSetScores h =>
    simp only [TrustScoring.batchSetScores] at h
    split at h
    · exact absurd h (by simp)
    · split at h
      · exact absurd h (by simp)
      · exact batchGo_card _ _ _ _ h hinv
  | revokeScore h =>
    rename_i s a
    simp only [TrustScoring.revokeScore] at h
    split at h
    · exact absurd h (by simp)
    · split at h
      · exact absurd h (by simp)
      · cases h
        rename_i hora hmem
        have hmem' : a ∈ σ.scored := by
          by_contra hc
          exact hmem hc
        have hpos : 0 < σ.scored.card := Finset.card_pos.mpr ⟨_, hmem'⟩
        simp only [Finset.card_erase_of_mem hmem']
        omega

/-- Claim C10: in every reachable TrustScoring state,
`totalScoredAddresses` equals the number of addresses whose `_hasScore`
flag is true, and consequently a successful `revokeScore` can never
underflow the counter. -/
theorem C10_scored_counter (σ : TrustScoring.State)
    (h : TrustScoring.Reachable σ) :
    σ.totalScoredAddresses = σ.scored.card ∧
    (∀ (s a : Addr) (σ' : TrustScoring.State),
      TrustScoring.revokeScore σ s a = .ok σ' → 0 < σ.totalScoredAddresses) := by
  obtain ⟨o, hr⟩ := h
  have hinv : σ.totalScoredAddresses = σ.scored.card := by
    induction hr with
    | refl => rfl
    | tail _ hstep ih => exact step_preserves_card hstep ih
  refine ⟨hinv, ?_⟩
  intro s a σ' hrev
  simp only [TrustScoring.revokeScore] at hrev
  split at hrev
  · exact absurd hrev (by simp)
  · split at hrev
    · exact absurd hrev (by simp)
    · rename_i hora hmem
      have hmem' : a ∈ σ.scored := by
        by_contra hc
        exact hmem hc
      have hpos : 0 < σ.scored.card := Finset.card_pos.mpr ⟨_, hmem'⟩
      omega

/-- Witness for C10 at the freshly deployed registry. -/
theorem C10_scored_counter_witness :
    (TrustScoring.initialState 1).totalScoredAddresses =
      (TrustScoring.initialState 1).scored.card :=
  (C10_scored_counter (TrustScoring.initialState 1)
    ⟨1, Relation.ReflTransGen.refl⟩).1

/-- Claim C7: `releasePayment` fails `PaymentNotFound` exactly on status
`None`; on a `Delayed` payment it is caller-agnostic and fails
`DelayNotElapsed` exactly when `now < releaseTime`, otherwise succeeds;
on an `Escrowed` payment it fails `NotEmployer` exactly when the caller
is not the employer, otherwise succeeds; every other status fails
`PaymentNotReleasable`.  On success the status flips to `Released` and
the recorded encrypted amount is transferred to the stored employee; an
error result carries no successor state (atomic revert). -/
theorem C7_release_payment (σ : Core.State) (sender : Addr)
    (now paymentId : Nat) :
    (Core.releasePayment σ sender now paymentId =
        .error .PaymentNotFound ↔
      (σ.pendingPayments paymentId).status = .none) ∧
    ((σ.pendingPayments paymentId).status = .delayed →
      (Core.releasePayment σ sender now paymentId =
          .error .DelayNotElapsed ↔
        now < (σ.pendingPayments paymentId).releaseTime) ∧
      ((σ.pendingPayments paymentId).releaseTime ≤ now →
        Core.releasePayment σ sender now paymentId =
          .ok ({ σ with
              pendingPayments := Function.update σ.pendingPayments paymentId
                { σ.pendingPayments paymentId with status := .released } },
            (σ.pendingPayments paymentId).employee,
            (σ.pendingPayments paymentId).encryptedAmount))) ∧
    ((σ.pendingPayments paymentId).status = .escrowed →
      (Core.releasePayment σ sender now paymentId =
          .error .NotEmployer ↔ sender ≠ σ.employer) ∧
      (sender = σ.employer →
        Core.releasePayment σ sender now paymentId =
          .ok ({ σ with
              pendingPayments := Function.update σ.pendingPayments paymentId
                { σ.pendingPayments paymentId with status := .released } },
            (σ.pendingPayments paymentId).employee,
            (σ.pendingPayments paymentId).encryptedAmount))) ∧
    ((σ.pendingPayments paymentId).status = .instant ∨
        (σ.pendingPayments paymentId).status = .released ∨
        (σ.pendingPayments paymentId).status = .completed →
      Core.releasePayment σ sender now paymentId =
        .error .PaymentNotReleasable) := by
  refine ⟨?_, ?_, ?_, ?_⟩
  · rcases hst : (σ.pendingPayments paymentId).status <;>
      simp [Core.releasePayment, hst] <;>
      split <;> simp
  · intro hst
    constructor
    · by_cases hn : now < (σ.pendingPayments paymentId).releaseTime <;>
        simp [Core.releasePayment, hst, hn]
    · intro hn
      have hn' : ¬ now < (σ.pendingPayments paymentId).releaseTime :=
        not_lt.mpr hn
      simp [Core.releasePayment, hst, hn']
  · intro hst
    constructor
    · by_cases hs : sender = σ.employer <;>
        simp [Core.releasePayment, hst, hs]
    · intro hs
      simp [Core.releasePayment, hst, hs]
  · intro hst
    rcases hst with hst | hst | hst <;> simp [Core.releasePayment, hst]

/-- Witness for C7: the employer releases the concrete escrowed payment 0,
which succeeds and transfers the recorded amount 5000 to employee 2. -/
theorem C7_release_payment_witness :
    Core.releasePayment coreEscrowed 1 0 0 =
      .ok ({ coreEscrowed with
          pendingPayments := Function.update coreEscrowed.pendingPayments 0
            { coreEscrowed.pendingPayments 0 with status := .released } },
        (coreEscrowed.pendingPayments 0).employee,
        (coreEscrowed.pendingPayments 0).encryptedAmount) :=
  ((C7_release_payment coreEscrowed 1 0 0).2.2.1 (by decide)).2 rfl

/-- The processed sublist has length `min budget (number of active
entries)`. -/
theorem takeActive_length (act : Addr → Bool) :
    ∀ (l : List Addr) (b : Nat),
      (Core.takeActive act l b).length = min b (l.countP act) := by
  intro l
  induction l with
  | nil => intro b; simp [Core.takeActive]
  | cons w rest ih =>
    intro b
    by_cases hb : b = 0
    · simp [Core.takeActive, hb]
    · by_cases hw : act w <;>
        (simp [Core.takeActive, hb, hw, List.countP_cons, ih]; try omega)

/-- Every entry of the processed sublist is active. -/
theorem takeActive_mem_active (act : Addr → Bool) :
    ∀ (l : List Addr) (b : Nat) (w : Addr),
      w ∈ Core.takeActive act l b → act w = true := by
  intro l
  induction l with
  | nil => intro b w h; simp [Core.takeActive] at h
  | cons v rest ih =>
    intro b w h
    by_cases hb : b = 0
    · simp [Core.takeActive, hb] at h
    · by_cases hv : act v
      · simp only [Core.takeActive, if_neg hb, if_pos hv, List.mem_cons] at h
        rcases h with rfl | h
        · exact hv
        · exact ih _ _ h
      · simp only [Core.takeActive, if_neg hb, if_neg hv] at h
        exact ih _ _ h

/-- Full characterization of a successful `executePayroll` loop: the
processed count, the new payment-id counter with one fresh id per
unscored and three per scored processed employee, the `lastPayDate`
stamping, and the payment store touched exactly on the fresh id range,
where every new record carries its own id and a non-`None` status. -/
theorem payrollLoop_ok_spec (ts : TrustScoring.State) (now : Nat) :
    ∀ (l : List Addr) (emps : Addr → Core.Employee)
      (pend : Nat → Core.PendingPayment) (nid p : Nat) (act : Addr → Bool),
      (∀ w, (emps w).isActive = act w) →
      ∀ (out : (Addr → Core.Employee) × (Nat → Core.PendingPayment) × Nat × Nat),
      Core.payrollLoop ts now l emps pend nid p = .ok out →
      out.2.2.2 = p +
        (Core.takeActive act l (Core.MAX_BATCH_SIZE - p)).length ∧
      out.2.2.1 = nid +
        (3 * (Core.takeActive act l (Core.MAX_BATCH_SIZE - p)).countP
            (fun w => decide (w ∈ ts.scored)) +
          (Core.takeActive act l (Core.MAX_BATCH_SIZE - p)).countP
            (fun w => decide (w ∉ ts.scored))) ∧
      (∀ w, out.1 w =
        if w ∈ Core.takeActive act l (Core.MAX_BATCH_SIZE - p)
        then { emps w with lastPayDate := now } else emps w) ∧
      (∀ j, j < nid ∨ out.2.2.1 ≤ j → out.2.1 j = pend j) ∧
      (∀ j, nid ≤ j → j < out.2.2.1 →
        (out.2.1 j).id = j ∧ (out.2.1 j).status ≠ Core.PaymentStatus.none) := by
  intro l
  induction l with
  | nil =>
    intro emps pend nid p act hact out hok
    simp only [Core.payrollLoop] at hok
    cases hok
    refine ⟨by simp [Core.takeActive], by simp [Core.takeActive],
      by intro v; simp [Core.takeActive], by intro j _; rfl,
      by intro j h1 h2; simp at h2; omega⟩
  | cons w rest ih =>
    intro emps pend nid p act hact out hok
    simp only [Core.payrollLoop] at hok
    by_cases hcap : Core.MAX_BATCH_SIZE ≤ p
    · rw [if_pos hcap] at hok
      cases hok
      have hb : Core.MAX_BATCH_SIZE - p = 0 := Nat.sub_eq_zero_of_le hcap
      refine ⟨by simp [Core.takeActive, hb], by simp [Core.takeActive, hb],
        by intro v; simp [Core.takeActive, hb], by intro j _; rfl,
        by intro j h1 h2; simp at h2; omega⟩
    · rw [if_neg hcap] at hok
      have hb : Core.MAX_BATCH_SIZE - p ≠ 0 := by omega
      by_cases hwa : (emps w).isActive
      · rw [if_neg (by simp [hwa])] at hok
        have hactw : act w = true := by rw [← hact w]; exact hwa
        have hact' : ∀ v,
            ((Function.update emps w
              { emps w with lastPayDate := now }) v).isActive = act v := by
          intro v
          by_cases hv : v = w
          · subst hv
            rw [Function.update_same, ← hact v]
          · rw [Function.update_noteq hv, hact v]
        have hbudget : Core.MAX_BATCH_SIZE - (p + 1) =
            (Core.MAX_BATCH_SIZE - p) - 1 := by omega
        have htake : Core.takeActive act (w :: rest)
            (Core.MAX_BATCH_SIZE - p) =
            w :: Core.takeActive act rest ((Core.MAX_BATCH_SIZE - p) - 1) := by
          simp [Core.takeActive, hb, hactw]
        by_cases hscore : ts.hasScore w
        · -- scored employee: three records through the trust-tier path
          rw [if_neg (by simp [hscore])] at hok
          have hwmem : w ∈ ts.scored := by
            simpa [TrustScoring.State.hasScore] using hscore
          split at hok
          · exact absurd hok (by simp)
          · split at hok
            · exact absurd hok (by simp)
            · simp only [Core.processWithTrustTier, Core.obliviousAmounts,
                Core.processInstantPayment, Core.processDelayedPayment,
                Core.processEscrowPaymentEncrypted] at hok
              obtain ⟨h1, h2, h3, h4, h5⟩ := ih _ _ _ _ act hact' out hok
              rw [hbudget] at h1 h2 h3
              have hc1 : (Core.takeActive act (w :: rest)
                  (Core.MAX_BATCH_SIZE - p)).countP
                    (fun v => decide (v ∈ ts.scored)) =
                  (Core.takeActive act rest
                    ((Core.MAX_BATCH_SIZE - p) - 1)).countP
                    (fun v => decide (v ∈ ts.scored)) + 1 := by
                rw [htake]
                simp [List.countP_cons, hwmem]
              have hc2 : (Core.takeActive act (w :: rest)
                  (Core.MAX_BATCH_SIZE - p)).countP
                    (fun v => decide (v ∉ ts.scored)) =
                  (Core.takeActive act rest
                    ((Core.MAX_BATCH_SIZE - p) - 1)).countP
                    (fun v => decide (v ∉ ts.scored)) := by
                rw [htake]
                simp [List.countP_cons, hwmem]
              have hmono : nid + 3 ≤ out.2.2.1 := by omega
              refine ⟨?_, ?_, ?_, ?_, ?_⟩
              · rw [htake]
                simp only [List.length_cons]
                omega
              · rw [hc1, hc2]
                omega
              · intro v
                rw [htake, h3 v]
                by_cases hv : v = w
                · subst hv
                  rw [Function.update_same]
                  by_cases hmem : v ∈ Core.takeActive act rest
                      ((Core.MAX_BATCH_SIZE - p) - 1) <;>
                    simp [hmem]
                · rw [Function.update_noteq hv]
                  simp only [List.mem_cons, hv, false_or]
              · intro j hj
                have hpj := h4 j (by omega)
                rw [hpj, Function.update_noteq (by omega),
                  Function.update_noteq (by omega),
                  Function.update_noteq (by omega)]
              · intro j hj1 hj2
                by_cases hj3 : nid + 3 ≤ j
                · exact h5 j hj3 hj2
                · have hpj := h4 j (by omega)
                  rcases (by omega : j = nid ∨ j = nid + 1 ∨ j = nid + 2) with
                    rfl | rfl | rfl
                  · rw [hpj, Function.update_noteq (by omega),
                      Function.update_noteq (by omega), Function.update_same]
                    exact ⟨rfl, by simp⟩
                  · rw [hpj, Function.update_noteq (by omega),
                      Function.update_same]
                    exact ⟨rfl, by simp⟩
                  · rw [hpj, Function.update_same]
                    exact ⟨rfl, by simp⟩
        · -- unscored employee: single default-escrow record
          rw [if_pos (by simpa using hscore)] at hok
          have hwnotmem : w ∉ ts.scored := by
            simpa [TrustScoring.State.hasScore] using hscore
          simp only [Core.processEscrowPayment] at hok
          obtain ⟨h1, h2, h3, h4, h5⟩ := ih _ _ _ _ act hact' out hok
          rw [hbudget] at h1 h2 h3
          have hc1 : (Core.takeActive act (w :: rest)
              (Core.MAX_BATCH_SIZE - p)).countP
                (fun v => decide (v ∈ ts.scored)) =
              (Core.takeActive act rest
                ((Core.MAX_BATCH_SIZE - p) - 1)).countP
                (fun v => decide (v ∈ ts.scored)) := by
            rw [htake]
            simp [List.countP_cons, hwnotmem]
          have hc2 : (Core.takeActive act (w :: rest)
              (Core.MAX_BATCH_SIZE - p)).countP
                (fun v => decide (v ∉ ts.scored)) =
              (Core.takeActive act rest
                ((Core.MAX_BATCH_SIZE - p) - 1)).countP
                (fun v => decide (v ∉ ts.scored)) + 1 := by
            rw [htake]
            simp [List.countP_cons, hwnotmem]
          have hmono : nid + 1 ≤ out.2.2.1 := by omega
          refine ⟨?_, ?_, ?_, ?_, ?_⟩
          · rw [htake]
            simp only [List.length_cons]
            omega
          · rw [hc1, hc2]
            omega
          · intro v
            rw [htake, h3 v]
            by_cases hv : v = w
            · subst hv
              rw [Function.update_same]
              by_cases hmem : v ∈ Core.takeActive act rest
                  ((Core.MAX_BATCH_SIZE - p) - 1) <;>
                simp [hmem]
            · rw [Function.update_noteq hv]
              simp only [List.mem_cons, hv, false_or]
          · intro j hj
            have hpj := h4 j (by omega)
            rw [hpj, Function.update_noteq (by omega)]
          · intro j hj1 hj2
            by_cases hj3 : nid + 1 ≤ j
            · exact h5 j hj3 hj2
            · have hjeq : j = nid := by omega
              subst hjeq
              have hpj := h4 j (by omega)
              rw [hpj, Function.update_same]
              exact ⟨rfl, by simp⟩
      · -- inactive: skipped without consuming budget
        rw [if_pos (by simp [hwa])] at hok
        have hactw : act w = false := by
          rw [← hact w]
          simp [hwa]
        have htake : Core.takeActive act (w :: rest)
            (Core.MAX_BATCH_SIZE - p) =
            Core.takeActive act rest (Core.MAX_BATCH_SIZE - p) := by
          simp [Core.takeActive, hb, hactw]
        obtain ⟨h1, h2, h3, h4, h5⟩ := ih _ _ _ _ act hact out hok
        rw [htake]
        exact ⟨h1, h2, h3, h4, h5⟩


/-- The payroll loop succeeds whenever no scored active employee in the
list has an expired score (`isHighTrust` / `isMediumTrust` are the only
possible revert sources inside the loop). -/
theorem payrollLoop_success (ts : TrustScoring.State) (now : Nat) :
    ∀ (l : List Addr) (emps : Addr → Core.Employee)
      (pend : Nat → Core.PendingPayment) (nid p : Nat),
      (∀ w ∈ l, (emps w).isActive = true → w ∈ ts.scored →
        TrustScoring.isExpiredAt ts w now = false) →
      ∃ out, Core.payrollLoop ts now l emps pend nid p = .ok out := by
  intro l
  induction l with
  | nil => intro emps pend nid p _; exact ⟨_, rfl⟩
  | cons w rest ih =>
    intro emps pend nid p h
    by_cases hcap : Core.MAX_BATCH_SIZE ≤ p
    · refine ⟨(emps, pend, nid, p), ?_⟩
      simp only [Core.payrollLoop]
      rw [if_pos hcap]
    · by_cases hwa : (emps w).isActive
      · have h' : ∀ v ∈ rest,
            ((Function.update emps w
              { emps w with lastPayDate := now }) v).isActive = true →
            v ∈ ts.scored → TrustScoring.isExpiredAt ts v now = false := by
          intro v hv hva hvm
          by_cases hvw : v = w
          · subst hvw
            exact h v (List.mem_cons_self v rest) hwa hvm
          · rw [Function.update_noteq hvw] at hva
            exact h v (List.mem_cons_of_mem _ hv) hva hvm
        by_cases hscore : ts.hasScore w
        · have hwmem : w ∈ ts.scored := by
            simpa [TrustScoring.State.hasScore] using hscore
          have hwexp : TrustScoring.isExpiredAt ts w now = false :=
            h w (List.mem_cons_self w rest) hwa hwmem
          have hH : TrustScoring.isHighTrust ts w now =
              .ok (decide (ts.trustScores w ≥ TrustScoring.HIGH_TRUST_THRESHOLD)) := by
            simp [TrustScoring.isHighTrust, hwmem, hwexp]
          have hM : TrustScoring.isMediumTrust ts w now =
              .ok (decide (ts.trustScores w ≥ TrustScoring.MEDIUM_TRUST_THRESHOLD)) := by
            simp [TrustScoring.isMediumTrust, hwmem, hwexp]
          obtain ⟨out, hout⟩ := ih
            (Function.update emps w { emps w with lastPayDate := now })
            (Core.processWithTrustTier pend nid (emps w)
              (decide (ts.trustScores w ≥ TrustScoring.HIGH_TRUST_THRESHOLD))
              (decide (ts.trustScores w ≥ TrustScoring.MEDIUM_TRUST_THRESHOLD))
              now).1
            (Core.processWithTrustTier pend nid (emps w)
              (decide (ts.trustScores w ≥ TrustScoring.HIGH_TRUST_THRESHOLD))
              (decide (ts.trustScores w ≥ TrustScoring.MEDIUM_TRUST_THRESHOLD))
              now).2
            (p + 1) h'
          refine ⟨out, ?_⟩
          simp only [Core.payrollLoop]
          rw [if_neg hcap, if_neg (by simp [hwa]), if_neg (by simp [hscore])]
          simp only [hH, hM]
          exact hout
        · obtain ⟨out, hout⟩ := ih
            (Function.update emps w { emps w with lastPayDate := now })
            (Core.processEscrowPayment pend nid (emps w) now).1
            (Core.processEscrowPayment pend nid (emps w) now).2
            (p + 1) h'
          refine ⟨out, ?_⟩
          simp only [Core.payrollLoop]
          rw [if_neg hcap, if_neg (by simp [hwa]), if_pos (by simpa using hscore)]
          exact hout
      · have h' : ∀ v ∈ rest, (emps v).isActive = true →
            v ∈ ts.scored → TrustScoring.isExpiredAt ts v now = false :=
          fun v hv => h v (List.mem_cons_of_mem _ hv)
        obtain ⟨out, hout⟩ := ih emps pend nid p h'
        refine ⟨out, ?_⟩
        simp only [Core.payrollLoop]
        rw [if_neg hcap, if_pos (by simp [hwa])]
        exact hout

/-- Claim C4: a single `executePayroll` call by the employer (lock not
held, no processed score expired) succeeds, processes exactly the first
`min 50 (number of active employees)` active entries of `employeeList`
in insertion order while skipping inactive ones, stamps each processed
employee's `lastPayDate` with the execution timestamp, increments the
global payroll-run counter by one, and reports the processed count in
the summary event (second component of the result); a run that
processes zero employees succeeds as well. -/
theorem C4_execute_payroll (σ : Core.State) (ts : TrustScoring.State)
    (sender : Addr) (now : Nat)
    (hemp : sender = σ.employer) (hlock : σ.payrollLock = false)
    (hexp : ∀ w ∈ σ.employeeList, (σ.employees w).isActive = true →
      w ∈ ts.scored → TrustScoring.isExpiredAt ts w now = false) :
    ∃ σ', Core.executePayroll σ ts sender now =
        .ok (σ', min Core.MAX_BATCH_SIZE
          (σ.employeeList.countP fun w => (σ.employees w).isActive)) ∧
      (∀ w, σ'.employees w =
        if w ∈ Core.takeActive (fun v => (σ.employees v).isActive)
            σ.employeeList Core.MAX_BATCH_SIZE
        then { σ.employees w with lastPayDate := now }
        else σ.employees w) ∧
      (∀ w ∈ Core.takeActive (fun v => (σ.employees v).isActive)
          σ.employeeList Core.MAX_BATCH_SIZE,
        (σ.employees w).isActive = true) ∧
      σ'.totalPayrollsExecuted = σ.totalPayrollsExecuted + 1 := by
  obtain ⟨out, hout⟩ := payrollLoop_success ts now σ.employeeList σ.employees
    σ.pendingPayments σ.nextPaymentId 0 hexp
  obtain ⟨emps', pend', nid', p'⟩ := out
  obtain ⟨h1, h2, h3, h4, h5⟩ := payrollLoop_ok_spec ts now σ.employeeList
    σ.employees σ.pendingPayments σ.nextPaymentId 0
    (fun v => (σ.employees v).isActive) (fun _ => rfl) _ hout
  have h1' : p' = 0 + (Core.takeActive (fun v => (σ.employees v).isActive)
      σ.employeeList (Core.MAX_BATCH_SIZE - 0)).length := h1
  rw [takeActive_length] at h1'
  have hmin : p' = min Core.MAX_BATCH_SIZE
      (σ.employeeList.countP fun w => (σ.employees w).isActive) := by
    omega
  refine ⟨{ σ with
      employees := emps'
      pendingPayments := pend'
      nextPaymentId := nid'
      totalPayrollsExecuted := σ.totalPayrollsExecuted + 1 }, ?_, ?_, ?_, rfl⟩
  · simp only [Core.executePayroll]
    rw [if_neg (by simp [hemp]), if_neg (by simp [hlock]), hout, ← hmin]
  · intro v
    have h3' := h3 v
    rw [Nat.sub_zero] at h3'
    exact h3'
  · intro v hv
    exact takeActive_mem_active _ σ.employeeList Core.MAX_BATCH_SIZE v hv

/-- Witness for C4: a concrete run over one active unscored employee. -/
theorem C4_execute_payroll_witness :
    ∃ σ', Core.executePayroll coreOneEmp tsBase 1 7 =
        .ok (σ', min Core.MAX_BATCH_SIZE
          (coreOneEmp.employeeList.countP
            fun w => (coreOneEmp.employees w).isActive)) ∧
      (∀ w, σ'.employees w =
        if w ∈ Core.takeActive (fun v => (coreOneEmp.employees v).isActive)
            coreOneEmp.employeeList Core.MAX_BATCH_SIZE
        then { coreOneEmp.employees w with lastPayDate := 7 }
        else coreOneEmp.employees w) ∧
      (∀ w ∈ Core.takeActive (fun v => (coreOneEmp.employees v).isActive)
          coreOneEmp.employeeList Core.MAX_BATCH_SIZE,
        (coreOneEmp.employees w).isActive = true) ∧
      σ'.totalPayrollsExecuted = coreOneEmp.totalPayrollsExecuted + 1 :=
  C4_execute_payroll coreOneEmp tsBase 1 7 rfl rfl (by simp [tsBase])

/-- Claim C5: a successful `executePayroll` call advances `nextPaymentId`
by exactly one per processed unscored employee plus three per processed
scored employee; the freshly created records occupy exactly the id range
`[old nextPaymentId, new nextPaymentId)` in creation order, each storing
its own id with a non-`None` status, and no existing record at any other
id is touched (ids are never reused or overwritten). -/
theorem C5_payment_ids (σ : Core.State) (ts : TrustScoring.State)
    (sender now : Nat) (σ' : Core.State) (cnt : Nat)
    (hok : Core.executePayroll σ ts sender now = .ok (σ', cnt)) :
    σ'.nextPaymentId = σ.nextPaymentId +
      (3 * (Core.takeActive (fun v => (σ.employees v).isActive)
          σ.employeeList Core.MAX_BATCH_SIZE).countP
          (fun w => decide (w ∈ ts.scored)) +
        (Core.takeActive (fun v => (σ.employees v).isActive)
          σ.employeeList Core.MAX_BATCH_SIZE).countP
          (fun w => decide (w ∉ ts.scored))) ∧
    (∀ j, j < σ.nextPaymentId ∨ σ'.nextPaymentId ≤ j →
      σ'.pendingPayments j = σ.pendingPayments j) ∧
    (∀ j, σ.nextPaymentId ≤ j → j < σ'.nextPaymentId →
      (σ'.pendingPayments j).id = j ∧
      (σ'.pendingPayments j).status ≠ Core.PaymentStatus.none) := by
  simp only [Core.executePayroll] at hok
  split at hok
  · exact absurd hok (by simp)
  · split at hok
    · exact absurd hok (by simp)
    · split at hok
      · exact absurd hok (by simp)
      · rename_i emps' pend' nid' p' heq
        rw [Except.ok.injEq, Prod.mk.injEq] at hok
        obtain ⟨hσ, hcnt⟩ := hok
        subst hσ
        obtain ⟨h1, h2, h3, h4, h5⟩ := payrollLoop_ok_spec ts now
          σ.employeeList σ.employees σ.pendingPayments σ.nextPaymentId 0
          (fun v => (σ.employees v).isActive) (fun _ => rfl) _ heq
        rw [Nat.sub_zero] at h2
        exact ⟨h2, h4, h5⟩

/-- Witness for C5: the concrete unscored-employee run creating exactly
one escrow record at id 0. -/
theorem C5_payment_ids_witness :
    coreEscrowed.nextPaymentId = coreOneEmp.nextPaymentId +
      (3 * (Core.takeActive (fun v => (coreOneEmp.employees v).isActive)
          coreOneEmp.employeeList Core.MAX_BATCH_SIZE).countP
          (fun w => decide (w ∈ tsBase.scored)) +
        (Core.takeActive (fun v => (coreOneEmp.employees v).isActive)
          coreOneEmp.employeeList Core.MAX_BATCH_SIZE).countP
          (fun w => decide (w ∉ tsBase.scored))) ∧
    (∀ j, j < coreOneEmp.nextPaymentId ∨ coreEscrowed.nextPaymentId ≤ j →
      coreEscrowed.pendingPayments j = coreOneEmp.pendingPayments j) ∧
    (∀ j, coreOneEmp.nextPaymentId ≤ j → j < coreEscrowed.nextPaymentId →
      (coreEscrowed.pendingPayments j).id = j ∧
      (coreEscrowed.pendingPayments j).status ≠ Core.PaymentStatus.none) :=
  C5_payment_ids coreOneEmp tsBase 1 7 coreEscrowed 1 rfl

/-- Across any single successful PayGramCore call, an employee-record
`wallet` field is either left unchanged or set to the (nonzero) key of a
newly stored record: no operation ever clears it. -/
theorem step_employee_wallet {σ σ' : Core.State} (h : Core.Step σ σ')
    (w : Addr) :
    (σ'.employees w).wallet = (σ.employees w).wallet ∨
    ((σ'.employees w).wallet = w ∧ w ≠ 0) := by
  cases h with
  | addEmployee h =>
    rename_i s w₀ sal role now
    simp only [Core.addEmployee] at h
    split at h
    · exact absurd h (by simp)
    · split at h
      · exact absurd h (by simp)
      · split at h
        · exact absurd h (by simp)
        · cases h
          rename_i hne hz hex
          by_cases hw : w = w₀
          · subst hw
            right
            exact ⟨by simp [Core.storeEmployee, Function.update_same], hz⟩
          · left
            simp [Core.storeEmployee, Function.update_noteq hw]
  | addEmployeePlaintext h =>
    rename_i s w₀ sal role now
    simp only [Core.addEmployeePlaintext] at h
    split at h
    · exact absurd h (by simp)
    · split at h
      · exact absurd h (by simp)
      · split at h
        · exact absurd h (by simp)
        · cases h
          rename_i hne hz hex
          by_cases hw : w = w₀
          · subst hw
            right
            exact ⟨by simp [Core.storeEmployee, Function.update_same], hz⟩
          · left
            simp [Core.storeEmployee, Function.update_noteq hw]
  | removeEmployee h =>
    rename_i s w₀
    simp only [Core.removeEmployee] at h
    split at h
    · exact absurd h (by simp)
    · split at h
      · exact absurd h (by simp)
      · split at h
        · exact absurd h (by simp)
        · cases h
          left
          by_cases hw : w = w₀
          · subst hw
            simp [Function.update_same]
          · simp [Function.update_noteq hw]
  | updateSalary h =>
    rename_i s w₀ sal
    simp only [Core.updateSalary] at h
    split at h
    · exact absurd h (by simp)
    · split at h
      · exact absurd h (by simp)
      · split at h
        · exact absurd h (by simp)
        · cases h
          left
          by_cases hw : w = w₀
          · subst hw
            simp [Function.update_same]
          · simp [Function.update_noteq hw]
  | updateSalaryPlaintext h =>
    rename_i s w₀ sal
    simp only [Core.updateSalaryPlaintext] at h
    split at h
    · exact absurd h (by simp)
    · split at h
      · exact absurd h (by simp)
      · split at h
        · exact absurd h (by simp)
        · cases h
          left
          by_cases hw : w = w₀
          · subst hw
            simp [Function.update_same]
          · simp [Function.update_noteq hw]
  | updateEmployeeRole h =>
    rename_i s w₀ r
    simp only [Core.updateEmployeeRole] at h
    split at h
    · exact absurd h (by simp)
    · split at h
      · exact absurd h (by simp)
      · split at h
        · exact absurd h (by simp)
        · cases h
          left
          by_cases hw : w = w₀
          · subst hw
            simp [Function.update_same]
          · simp [Function.update_noteq hw]
  | executePayroll h =>
    rename_i ts s now cnt
    simp only [Core.executePayroll] at h
    split at h
    · exact absurd h (by simp)
    · split at h
      · exact absurd h (by simp)
      · split at h
        · exact absurd h (by simp)
        · rename_i emps' pend' nid' p' heq
          rw [Except.ok.injEq, Prod.mk.injEq] at h
          obtain ⟨hσ, hcnt⟩ := h
          subst hσ
          obtain ⟨h1, h2, h3, h4, h5⟩ := payrollLoop_ok_spec ts now
            σ.employeeList σ.employees σ.pendingPayments σ.nextPaymentId 0
            (fun v => (σ.employees v).isActive) (fun _ => rfl) _ heq
          left
          have h3' : emps' w =
              (if w ∈ Core.takeActive (fun v => (σ.employees v).isActive)
                  σ.employeeList (Core.MAX_BATCH_SIZE - 0)
                then { σ.employees w with lastPayDate := now }
                else σ.employees w) := h3 w
          rw [show ({ σ with
              employees := emps'
              pendingPayments := pend'
              nextPaymentId := nid'
              totalPayrollsExecuted :=
                σ.totalPayrollsExecuted + 1 } : Core.State).employees = emps'
            from rfl, h3']
          split <;> rfl
  | releasePayment h =>
    rename_i s now id dst amt
    simp only [Core.releasePayment] at h
    split at h
    · exact absurd h (by simp)
    · split at h
      · split at h
        · exact absurd h (by simp)
        · cases h
          left
          rfl
      · split at h
        · split at h
          · exact absurd h (by simp)
          · cases h
            left
            rfl
        · exact absurd h (by simp)
  | cancelPayment h =>
    rename_i s id
    simp only [Core.cancelPayment] at h
    split at h
    · exact absurd h (by simp)
    · split at h
      · exact absurd h (by simp)
      · split at h
        · exact absurd h (by simp)
        · cases h
          left
          rfl
  | transferEmployer h =>
    rename_i s e
    simp only [Core.transferEmployer] at h
    split at h
    · exact absurd h (by simp)
    · split at h
      · exact absurd h (by simp)
      · cases h
        left
        rfl

/-- In every reachable PayGramCore state, the default record at the zero
address has a zero wallet field (no employee is ever stored at the zero
address). -/
theorem reachable_zero_wallet (σ : Core.State) (h : Core.Reachable σ) :
    (σ.employees 0).wallet = 0 := by
  obtain ⟨o, e, he, hr⟩ := h
  induction hr with
  | refl => rfl
  | tail hab hbc ih =>
    rcases step_employee_wallet hbc 0 with heq | ⟨heq, hz⟩
    · rw [heq, ih]
    · exact absurd rfl hz

/-- A nonzero employee wallet field persists across any sequence of
successful PayGramCore calls. -/
theorem wallet_nonzero_persists {σ σ' : Core.State}
    (h : Relation.ReflTransGen Core.Step σ σ') (w : Addr)
    (hw : (σ.employees w).wallet ≠ 0) : (σ'.employees w).wallet ≠ 0 := by
  induction h with
  | refl => exact hw
  | tail hab hbc ih =>
    rcases step_employee_wallet hbc w with heq | ⟨heq, hz⟩
    · rw [heq]
      exact ih
    · rw [heq]
      exact hz

/-- Claim C6: once a wallet has been successfully added (its stored
`wallet` field is nonzero), any later `addEmployee` or
`addEmployeePlaintext` call for that wallet by the then-current employer
fails with `EmployeeAlreadyExists` — in particular also after a
`removeEmployee`, which only clears `isActive` — because the `wallet`
field is set on creation and never cleared by any operation. -/
theorem C6_no_readd (σ σ' : Core.State) (w : Addr)
    (hreach : Core.Reachable σ)
    (hlater : Relation.ReflTransGen Core.Step σ σ')
    (hadded : (σ.employees w).wallet ≠ 0) :
    (σ'.employees w).wallet ≠ 0 ∧
    (∀ sal role now, Core.addEmployee σ' σ'.employer w sal role now =
      .error .EmployeeAlreadyExists) ∧
    (∀ sal role now, Core.addEmployeePlaintext σ' σ'.employer w sal role now =
      .error .EmployeeAlreadyExists) := by
  have hw0 : w ≠ 0 := by
    intro hw
    subst hw
    exact hadded (reachable_zero_wallet σ hreach)
  have hw' : (σ'.employees w).wallet ≠ 0 := wallet_nonzero_persists hlater w hadded
  refine ⟨hw', ?_, ?_⟩
  · intro sal role now
    simp [Core.addEmployee, hw0, hw']
  · intro sal role now
    simp [Core.addEmployeePlaintext, hw0, hw']

/-- Witness for C6: re-adding employee 2 of the concrete reachable state
fails with `EmployeeAlreadyExists`. -/
theorem C6_no_readd_witness :
    (coreOneEmp.employees 2).wallet ≠ 0 ∧
    (∀ sal role now, Core.addEmployee coreOneEmp coreOneEmp.employer 2 sal role now =
      .error .EmployeeAlreadyExists) ∧
    (∀ sal role now, Core.addEmployeePlaintext coreOneEmp coreOneEmp.employer 2 sal role now =
      .error .EmployeeAlreadyExists) :=
  C6_no_readd coreOneEmp coreOneEmp 2
    ⟨1, 1, one_ne_zero,
      Relation.ReflTransGen.single (Core.Step.addEmployeePlaintext
        (rfl : Core.addEmployeePlaintext coreBase 1 2 5000 "engineer" 0 =
          .ok coreOneEmp))⟩
    Relation.ReflTransGen.refl (by decide)

/-- Frame property of a single successful PayGramCore call on the payment
store: the id counter never decreases, and a record can change only if it
was `Delayed` or `Escrowed` before the call (release/cancel) or sits in
the freshly allocated id range (payroll). -/
theorem step_pending_frame {σ σ' : Core.State} (h : Core.Step σ σ') :
    σ.nextPaymentId ≤ σ'.nextPaymentId ∧
    ∀ j, σ'.pendingPayments j = σ.pendingPayments j ∨
      (σ.pendingPayments j).status = Core.PaymentStatus.delayed ∨
      (σ.pendingPayments j).status = Core.PaymentStatus.escrowed ∨
      (σ.nextPaymentId ≤ j ∧ j < σ'.nextPaymentId) := by
  cases h with
  | addEmployee h =>
    simp only [Core.addEmployee] at h
    split at h
    · exact absurd h (by simp)
    · split at h
      · exact absurd h (by simp)
      · split at h
        · exact absurd h (by simp)
        · cases h
          exact ⟨Nat.le_refl _, fun j => Or.inl rfl⟩
  | addEmployeePlaintext h =>
    simp only [Core.addEmployeePlaintext] at h
    split at h
    · exact absurd h (by simp)
    · split at h
      · exact absurd h (by simp)
      · split at h
        · exact absurd h (by simp)
        · cases h
          exact ⟨Nat.le_refl _, fun j => Or.inl rfl⟩
  | removeEmployee h =>
    simp only [Core.removeEmployee] at h
    split at h
    · exact absurd h (by simp)
    · split at h
      · exact absurd h (by simp)
      · split at h
        · exact absurd h (by simp)
        · cases h
          exact ⟨Nat.le_refl _, fun j => Or.inl rfl⟩
  | updateSalary h =>
    simp only [Core.updateSalary] at h
    split at h
    · exact absurd h (by simp)
    · split at h
      · exact absurd h (by simp)
      · split at h
        · exact absurd h (by simp)
        · cases h
          exact ⟨Nat.le_refl _, fun j => Or.inl rfl⟩
  | updateSalaryPlaintext h =>
    simp only [Core.updateSalaryPlaintext] at h
    split at h
    · exact absurd h (by simp)
    · split at h
      · exact absurd h (by simp)
      · split at h
        · exact absurd h (by simp)
        · cases h
          exact ⟨Nat.le_refl _, fun j => Or.inl rfl⟩
  | updateEmployeeRole h =>
    simp only [Core.updateEmployeeRole] at h
    split at h
    · exact absurd h (by simp)
    · split at h
      · exact absurd h (by simp)
      · split at h
        · exact absurd h (by simp)
        · cases h
          exact ⟨Nat.le_refl _, fun j => Or.inl rfl⟩
  | executePayroll h =>
    rename_i ts s now cnt
    simp only [Core.executePayroll] at h
    split at h
    · exact absurd h (by simp)
    · split at h
      · exact absurd h (by simp)
      · split at h
        · exact absurd h (by simp)
        · rename_i emps' pend' nid' p' heq
          rw [Except.ok.injEq, Prod.mk.injEq] at h
          obtain ⟨hσ, hcnt⟩ := h
          subst hσ
          obtain ⟨h1, h2, h3, h4, h5⟩ := payrollLoop_ok_spec ts now
            σ.employeeList σ.employees σ.pendingPayments σ.nextPaymentId 0
            (fun v => (σ.employees v).isActive) (fun _ => rfl) _ heq
          have h2' : nid' = σ.nextPaymentId +
              (3 * (Core.takeActive (fun v => (σ.employees v).isActive)
                  σ.employeeList (Core.MAX_BATCH_SIZE - 0)).countP
                  (fun w => decide (w ∈ ts.scored)) +
                (Core.takeActive (fun v => (σ.employees v).isActive)
                  σ.employeeList (Core.MAX_BATCH_SIZE - 0)).countP
                  (fun w => decide (w ∉ ts.scored))) := h2
          have h4' : ∀ j, j < σ.nextPaymentId ∨ nid' ≤ j →
              pend' j = σ.pendingPayments j := h4
          refine ⟨by show σ.nextPaymentId ≤ nid'; omega, ?_⟩
          intro j
          by_cases hj : j < σ.nextPaymentId ∨ nid' ≤ j
          · exact Or.inl (h4' j hj)
          · right; right; right
            constructor
            · omega
            · show j < nid'
              omega
  | releasePayment h =>
    rename_i s now pid dst amt
    simp only [Core.releasePayment] at h
    split at h
    · exact absurd h (by simp)
    · rename_i hnone
      split at h
      · rename_i hdel
        split at h
        · exact absurd h (by simp)
        · cases h
          refine ⟨Nat.le_refl _, ?_⟩
          intro j
          by_cases hj : j = pid
          · subst hj
            exact Or.inr (Or.inl hdel)
          · exact Or.inl (Function.update_noteq hj _ _)
      · split at h
        · rename_i hesc
          split at h
          · exact absurd h (by simp)
          · cases h
            refine ⟨Nat.le_refl _, ?_⟩
            intro j
            by_cases hj : j = pid
            · subst hj
              exact Or.inr (Or.inr (Or.inl hesc))
            · exact Or.inl (Function.update_noteq hj _ _)
        · exact absurd h (by simp)
  | cancelPayment h =>
    rename_i s pid
    simp only [Core.cancelPayment] at h
    split at h
    · exact absurd h (by simp)
    · split at h
      · exact absurd h (by simp)
      · split at h
        · exact absurd h (by simp)
        · rename_i hnone hcond
          cases h
          have hde : (σ.pendingPayments pid).status = Core.PaymentStatus.delayed ∨
              (σ.pendingPayments pid).status = Core.PaymentStatus.escrowed := by
            rcases not_and_or.mp hcond with hc | hc
            · exact Or.inl (not_not.mp hc)
            · exact Or.inr (not_not.mp hc)
          refine ⟨Nat.le_refl _, ?_⟩
          intro j
          by_cases hj : j = pid
          · subst hj
            exact Or.inr (by
              rcases hde with hd | hd
              · exact Or.inl hd
              · exact Or.inr (Or.inl hd))
          · exact Or.inl (Function.update_noteq hj _ _)
  | transferEmployer h =>
    simp only [Core.transferEmployer] at h
    split at h
    · exact absurd h (by simp)
    · split at h
      · exact absurd h (by simp)
      · cases h
        exact ⟨Nat.le_refl _, fun j => Or.inl rfl⟩

/-- Along any sequence of successful calls, the property that every id at
or above `nextPaymentId` holds an empty (`None`-status) record is
preserved. -/
theorem path_pending_none {σ σ' : Core.State}
    (hpath : Relation.ReflTransGen Core.Step σ σ')
    (hinv : ∀ j, σ.nextPaymentId ≤ j →
      (σ.pendingPayments j).status = Core.PaymentStatus.none) :
    ∀ j, σ'.nextPaymentId ≤ j →
      (σ'.pendingPayments j).status = Core.PaymentStatus.none := by
  induction hpath with
  | refl => exact hinv
  | tail hab hbc ih =>
    intro j hj
    obtain ⟨hle, hframe⟩ := step_pending_frame hbc
    rcases hframe j with heq | hst | hst | ⟨h1, h2⟩
    · rw [heq]
      exact ih j (le_trans hle hj)
    · rw [ih j (le_trans hle hj)] at hst
      exact absurd hst (by decide)
    · rw [ih j (le_trans hle hj)] at hst
      exact absurd hst (by decide)
    · omega

/-- In every reachable PayGramCore state, every id at or above
`nextPaymentId` holds an empty record: fresh ids are genuinely fresh. -/
theorem reach_pending_none (σ : Core.State) (h : Core.Reachable σ) :
    ∀ j, σ.nextPaymentId ≤ j →
      (σ.pendingPayments j).status = Core.PaymentStatus.none := by
  obtain ⟨o, e, he, hr⟩ := h
  exact path_pending_none hr (fun j hj => rfl)

/-- A `Released` or `Completed` record is untouched by any single
successful call, given the fresh-id invariant. -/
theorem step_preserves_terminal {σ σ' : Core.State} (h : Core.Step σ σ')
    (hinv : ∀ j, σ.nextPaymentId ≤ j →
      (σ.pendingPayments j).status = Core.PaymentStatus.none)
    (id : Nat)
    (hterm : (σ.pendingPayments id).status = Core.PaymentStatus.released ∨
      (σ.pendingPayments id).status = Core.PaymentStatus.completed) :
    σ'.pendingPayments id = σ.pendingPayments id := by
  obtain ⟨hle, hframe⟩ := step_pending_frame h
  rcases hframe id with heq | hst | hst | ⟨h1, h2⟩
  · exact heq
  · rcases hterm with ht | ht <;> (rw [ht] at hst; exact absurd hst (by decide))
  · rcases hterm with ht | ht <;> (rw [ht] at hst; exact absurd hst (by decide))
  · have hnone := hinv id h1
    rcases hterm with ht | ht <;> (rw [hnone] at ht; exact absurd ht (by decide))

/-- A `Released` or `Completed` record is untouched by any sequence of
successful calls from a state satisfying the fresh-id invariant. -/
theorem path_preserves_terminal {σ σ' : Core.State}
    (hpath : Relation.ReflTransGen Core.Step σ σ')
    (hinv : ∀ j, σ.nextPaymentId ≤ j →
      (σ.pendingPayments j).status = Core.PaymentStatus.none)
    (id : Nat)
    (hterm : (σ.pendingPayments id).status = Core.PaymentStatus.released ∨
      (σ.pendingPayments id).status = Core.PaymentStatus.completed) :
    σ'.pendingPayments id = σ.pendingPayments id := by
  induction hpath with
  | refl => rfl
  | tail hab hbc ih =>
    refine (step_preserves_terminal hbc (path_pending_none hab hinv) id ?_).trans ih
    rcases hterm with ht | ht
    · exact Or.inl (ih.symm ▸ ht)
    · exact Or.inr (ih.symm ▸ ht)

/-- Claim C8: in every reachable state the statuses `Released` and
`Completed` are terminal and absorbing — no later successful call ever
changes such a record (payroll writes only at fresh ids), `releasePayment`
on it fails `PaymentNotReleasable`, and `cancelPayment` by the employer
fails `PaymentAlreadyProcessed`; in particular after `cancelPayment`
moves a `Delayed` payment to `Completed`, a later `releasePayment` fails
`PaymentNotReleasable` and a later `cancelPayment` fails
`PaymentAlreadyProcessed`. -/
theorem C8_terminal_absorbing (σ : Core.State) (hreach : Core.Reachable σ) :
    (∀ id, ((σ.pendingPayments id).status = Core.PaymentStatus.released ∨
        (σ.pendingPayments id).status = Core.PaymentStatus.completed) →
      (∀ σ', Relation.ReflTransGen Core.Step σ σ' →
        σ'.pendingPayments id = σ.pendingPayments id) ∧
      (∀ sender now, Core.releasePayment σ sender now id =
        .error .PaymentNotReleasable) ∧
      Core.cancelPayment σ σ.employer id =
        .error .PaymentAlreadyProcessed) ∧
    (∀ id σc, (σ.pendingPayments id).status = Core.PaymentStatus.delayed →
      Core.cancelPayment σ σ.employer id = .ok σc →
      (σc.pendingPayments id).status = Core.PaymentStatus.completed ∧
      (∀ sender now, Core.releasePayment σc sender now id =
        .error .PaymentNotReleasable) ∧
      Core.cancelPayment σc σc.employer id =
        .error .PaymentAlreadyProcessed) := by
  have hinv := reach_pending_none σ hreach
  constructor
  · intro id hterm
    refine ⟨?_, ?_, ?_⟩
    · intro σ' hpath
      exact path_preserves_terminal hpath hinv id hterm
    · intro sender now
      rcases hterm with ht | ht <;> simp [Core.releasePayment, ht]
    · rcases hterm with ht | ht <;> simp [Core.cancelPayment, ht]
  · intro id σc hdel hcancel
    simp only [Core.cancelPayment] at hcancel
    split at hcancel
    · exact absurd hcancel (by simp)
    · split at hcancel
      · exact absurd hcancel (by simp)
      · split at hcancel
        · exact absurd hcancel (by simp)
        · cases hcancel
          refine ⟨by simp [Function.update_same], ?_, ?_⟩
          · intro sender now
            simp [Core.releasePayment, Function.update_same]
          · simp [Core.cancelPayment, Function.update_same]

/-- Witness for C8: the cancelled (Completed) concrete payment 0 can be
neither released nor cancelled again. -/
theorem C8_terminal_absorbing_witness :
    Core.releasePayment coreCancelled 9 99 0 =
      .error .PaymentNotReleasable ∧
    Core.cancelPayment coreCancelled coreCancelled.employer 0 =
      .error .PaymentAlreadyProcessed := by
  have hreach : Core.Reachable coreCancelled :=
    ⟨1, 1, one_ne_zero,
      Relation.ReflTransGen.tail
        (Relation.ReflTransGen.tail
          (Relation.ReflTransGen.single
            (Core.Step.addEmployeePlaintext
              (rfl : Core.addEmployeePlaintext coreBase 1 2 5000 "engineer" 0 =
                .ok coreOneEmp)))
          (Core.Step.executePayroll
            (rfl : Core.executePayroll coreOneEmp tsBase 1 7 =
              .ok (coreEscrowed, 1))))
        (Core.Step.cancelPayment
          (rfl : Core.cancelPayment coreEscrowed 1 0 = .ok coreCancelled))⟩
  have h := (C8_terminal_absorbing coreCancelled hreach).1 0 (Or.inr (by decide))
  exact ⟨h.2.1 9 99, h.2.2⟩

end PayGram
